import Mathlib

set_option maxRecDepth 8000

/- Shallow embedding of tig's refs.c (reference catalog, classifier,
   index cache and reload reconciler).

   Modelling conventions:
   * C byte strings are modelled as `List Char`; `strcmp` is `strcmpL`
     (sign-equivalent to the C return value on the ASCII strings the
     program handles), `prefixcmp`/`suffixcmp` become `List.isPrefixOf` /
     `List.isSuffixOf`.
   * Records are allocated into an append-only `store`; the C `refs`
     pointer array is `catalog`, a list of store indices in catalog
     order.  Pointer identity in C is store-index identity here, so the
     in-place mutation done by `add_to_refs` is `List.set` on the store,
     and the index-cache entries (`ref_lists`) hold store indices.
   * Allocation (`realloc_refs` etc.) never fails in the model.
   * The external `git ls-remote` process (`io_run_load`) is modelled by
     a `Source`: the tab-split pairs it delivered before terminating and
     a flag saying whether it terminated successfully.  `io_run_buf` for
     `git symbolic-ref HEAD` is modelled by `Source.headOut`.
   * The C `qsort` calls are modelled with the deterministic (stable)
     `List.insertionSort`; `qsort` promises only an order consistent
     with the comparator, which insertion sort satisfies. -/

/- ==== Definitions: the shallow embedding of refs.c, the spec-modelled
   comparator, the pure observation model, and the concrete states used
   by the claim theorems. ==== -/

inductive Status where
  | OK : Status
  | ERR : Status
deriving DecidableEq, Repr

structure Ref where
  name : List Char
  id : List Char
  head : Bool
  tag : Bool
  ltag : Bool
  remote : Bool
  replace : Bool
  tracked : Bool
  valid : Bool
deriving DecidableEq, Repr

structure RefList where
  id : List Char
  refs : List Nat
deriving DecidableEq, Repr

structure RefsState where
  store : List Ref
  catalog : List Nat
  refsHead : Option Nat
  refLists : List RefList
deriving DecidableEq, Repr

def dRef : Ref :=
  { name := [], id := [], head := false, tag := false, ltag := false,
    remote := false, replace := false, tracked := false, valid := false }

def getRef (st : RefsState) (i : Nat) : Ref := st.store.getD i dRef

def emptyState : RefsState := { store := [], catalog := [], refsHead := none, refLists := [] }

def strcmpL : List Char → List Char → Int
  | [], [] => 0
  | [], _ :: _ => -1
  | _ :: _, [] => 1
  | a :: as, b :: bs =>
    if a.toNat < b.toNat then -1 else if b.toNat < a.toNat then 1 else strcmpL as bs

def sRefsTags : List Char := "refs/tags/".data

def sPeel : List Char := "^\x7b\x7d".data

def sRefsRemotes : List Char := "refs/remotes/".data

def sRefsReplace : List Char := "refs/replace/".data

def sRefsHeads : List Char := "refs/heads/".data

def sHEAD : List Char := "HEAD".data

def sReplaced : List Char := "replaced".data

def boolSub (a b : Bool) : Int := (if a then (1 : Int) else 0) - (if b then (1 : Int) else 0)

def compare_refs (r1 r2 : Ref) : Int :=
  if r1.tag ≠ r2.tag then boolSub r2.tag r1.tag
  else if r1.ltag ≠ r2.ltag then boolSub r2.ltag r1.ltag
  else if r1.head ≠ r2.head then boolSub r2.head r1.head
  else if r1.tracked ≠ r2.tracked then boolSub r2.tracked r1.tracked
  else if r1.replace ≠ r2.replace then boolSub r2.replace r1.replace
  else if r1.remote ≠ r2.remote then boolSub r1.remote r2.remote
  else strcmpL r1.name r2.name

/-- The qsort comparison used for both the catalog and every index-cache
entry: indices compared through `compare_refs` on the records. -/
def refLe (st : RefsState) (i j : Nat) : Prop := compare_refs (getRef st i) (getRef st j) ≤ 0

instance (st : RefsState) : DecidableRel (refLe st) := fun i j =>
  inferInstanceAs (Decidable (compare_refs (getRef st i) (getRef st j) ≤ 0))

def sortIdx (st : RefsState) (l : List Nat) : List Nat := l.insertionSort (refLe st)

structure RefOpt where
  remote : List Char
  head : List Char
deriving DecidableEq, Repr

/-- The classifier part of `add_to_refs`: given the raw `(id, name)` pair
and the head/remote configuration, produce the record value that will be
stored (effective name, effective id, category flags, `valid := true`),
or `none` when the line is skipped (a `HEAD` line while the head is
already resolved). -/
def classify_ref (id name : List Char) (opt : RefOpt) : Option Ref :=
  if sRefsTags.isPrefixOf name then
    let peeled := sPeel.isSuffixOf name
    let name1 := if peeled then name.take (name.length - 3) else name
    some { name := name1.drop sRefsTags.length, id := id, head := false, tag := true,
           ltag := !peeled, remote := false, replace := false, tracked := false, valid := true }
  else if sRefsRemotes.isPrefixOf name then
    let name1 := name.drop sRefsRemotes.length
    some { name := name1, id := id, head := false, tag := false, ltag := false,
           remote := true, replace := false, tracked := opt.remote = name1, valid := true }
  else if sRefsReplace.isPrefixOf name then
    some { name := sReplaced, id := name.drop sRefsReplace.length, head := false, tag := false,
           ltag := false, remote := false, replace := true, tracked := false, valid := true }
  else if sRefsHeads.isPrefixOf name then
    let name1 := name.drop sRefsHeads.length
    some { name := name1, id := id, head := opt.head = name1, tag := false, ltag := false,
           remote := false, replace := false, tracked := false, valid := true }
  else if name = sHEAD then
    if opt.head ≠ [] then none
    else some { name := name, id := id, head := true, tag := false, ltag := false,
                remote := false, replace := false, tracked := false, valid := true }
  else
    some { name := name, id := id, head := false, tag := false, ltag := false,
           remote := false, replace := false, tracked := false, valid := true }

/-- The linear scan of `add_to_refs` (refs.c lines 161-168): the first
record in catalog order whose id (for replacement observations) or name
(otherwise) equals the observation's key. -/
def findPos (o : Ref) (st : RefsState) : Option Nat :=
  st.catalog.find? (fun i => if o.replace then (getRef st i).id = o.id else (getRef st i).name = o.name)

def applyObs (st : RefsState) (o : Ref) : RefsState :=
  match findPos o st with
  | some i =>
      { st with store := st.store.set i { o with name := (getRef st i).name },
                refsHead := if o.head then some i else st.refsHead }
  | none =>
      let i := st.store.length
      { st with store := st.store ++ [o], catalog := st.catalog ++ [i],
                refsHead := if o.head then some i else st.refsHead }

def add_to_refs (id name : List Char) (opt : RefOpt) (st : RefsState) : RefsState :=
  match classify_ref id name opt with
  | none => st
  | some o => applyObs st o

/-- The manual insertion entry point `add_ref` (refs.c lines 270-276). -/
def add_ref (id name remote_name head : List Char) (st : RefsState) : RefsState :=
  add_to_refs id name { remote := remote_name, head := head } st

/-- Iteration core of `foreach_ref`: the store indices visited, in
catalog order; records with an empty id are skipped, and a `false` from
the visitor stops the walk after that record. -/
def foreachGo (st : RefsState) (visitor : Ref → Bool) : List Nat → List Nat
  | [] => []
  | i :: rest =>
    if (getRef st i).id ≠ [] then
      if visitor (getRef st i) then i :: foreachGo st visitor rest else [i]
    else foreachGo st visitor rest

def foreach_ref (st : RefsState) (visitor : Ref → Bool) : List Nat :=
  foreachGo st visitor st.catalog

/-- The records `foreach_ref` can ever reach: non-empty id, catalog order. -/
def visibleIdx (st : RefsState) : List Nat :=
  st.catalog.filter (fun i => (getRef st i).id ≠ [])

def get_ref_head (st : RefsState) : Option Nat := st.refsHead

/-- The records whose current id matches a query, collected in catalog
order (the scan of refs.c lines 85-89). -/
def idMatches (id : List Char) (st : RefsState) : List Nat :=
  st.catalog.filter (fun i => id = (getRef st i).id)

def get_ref_list (id : List Char) (st : RefsState) : Option RefList × RefsState :=
  match st.refLists.find? (fun l => l.id = id) with
  | some l => (some l, st)
  | none =>
    if idMatches id st = [] then (none, st)
    else
      (some ⟨id, sortIdx st (idMatches id st)⟩,
       { st with refLists := st.refLists ++ [⟨id, sortIdx st (idMatches id st)⟩] })

structure Source where
  headOut : Option (List Char)
  pairs : List (List Char × List Char)
  ok : Bool
deriving DecidableEq, Repr

/-- Head resolution (refs.c lines 222-227): when the cached head is
empty, run `git symbolic-ref HEAD` and strip a `refs/heads/` prefix. -/
def resolve_head (repoHead : List Char) (headOut : Option (List Char)) : List Char :=
  if repoHead ≠ [] then repoHead
  else
    match headOut with
    | none => repoHead
    | some s => if sRefsHeads.isPrefixOf s then s.drop sRefsHeads.length else s

/-- Staling step (refs.c lines 229-231). -/
def stale_refs (st : RefsState) : RefsState :=
  { st with refsHead := none,
            store := st.store.map (fun r => { r with valid := false }) }

/-- Ingest: `io_run_load` calling back into `add_to_refs` per pair. -/
def ingest (opt : RefOpt) (pairs : List (List Char × List Char)) (st : RefsState) : RefsState :=
  pairs.foldl (fun s p => add_to_refs p.1 p.2 opt s) st

/-- Tombstoning step (refs.c lines 236-238). -/
def tombstone_refs (st : RefsState) : RefsState :=
  { st with store := st.store.map (fun r => if r.valid then r else { r with id := [] }) }

/-- Index-cache pruning step (refs.c lines 240-249): each entry keeps, in
place and in order, the members whose id still equals the entry key. -/
def pruneList (st : RefsState) (l : RefList) : RefList :=
  { l with refs := l.refs.filter (fun i => l.id = (getRef st i).id) }

def prune_ref_lists (st : RefsState) : RefsState :=
  { st with refLists := st.refLists.map (pruneList st) }

/-- Final qsort of the catalog (refs.c line 251). -/
def sort_catalog (st : RefsState) : RefsState :=
  { st with catalog := sortIdx st st.catalog }

structure ReloadResult where
  state : RefsState
  repoHead : List Char
  status : Status
deriving DecidableEq, Repr

def reload_refs (git_dir remote_name repoHead : List Char) (src : Source) (st : RefsState) :
    ReloadResult :=
  if git_dir = [] then ⟨st, repoHead, Status.OK⟩
  else
    let head := resolve_head repoHead src.headOut
    let opt : RefOpt := { remote := remote_name, head := head }
    let st1 := ingest opt src.pairs (stale_refs st)
    if src.ok then
      ⟨sort_catalog (prune_ref_lists (tombstone_refs st1)), head, Status.OK⟩
    else
      ⟨st1, head, Status.ERR⟩

structure LoadState where
  gitDir : List Char
  remote : List Char
  repoHead : List Char
  loaded : Bool
  rstate : RefsState
deriving DecidableEq, Repr

def load_refs (force : Bool) (src : Source) (ls : LoadState) : LoadState × Status :=
  if force then
    let r := reload_refs ls.gitDir ls.remote [] src ls.rstate
    ({ ls with repoHead := r.repoHead, loaded := true, rstate := r.state }, r.status)
  else if ls.loaded then (ls, Status.OK)
  else
    let r := reload_refs ls.gitDir ls.remote ls.repoHead src ls.rstate
    ({ ls with repoHead := r.repoHead, loaded := true, rstate := r.state }, r.status)

/-- The key a record is deduplicated under: its id for replacement
records, its name otherwise. -/
def refKey (r : Ref) : List Char := if r.replace then r.id else r.name

structure RefFlags where
  tag : Bool
  ltag : Bool
  head : Bool
  remote : Bool
  replace : Bool
  tracked : Bool
deriving DecidableEq, Repr

def flagsOf (r : Ref) : RefFlags :=
  ⟨r.tag, r.ltag, r.head, r.remote, r.replace, r.tracked⟩

/-- The catalog contents as `(key, id, flags)` tuples in catalog order. -/
def catalogTuples (st : RefsState) : List (List Char × List Char × RefFlags) :=
  st.catalog.map (fun i => (refKey (getRef st i), (getRef st i).id, flagsOf (getRef st i)))

def optStd : RefOpt := { remote := "origin".data, head := [] }

/-- State after feeding the tag-object line of an annotated tag `v1`. -/
def stTag1 : RefsState := add_to_refs "Xobj".data "refs/tags/v1".data optStd emptyState

/-- State after additionally feeding the peeled line `refs/tags/v1` + peel marker. -/
def stTag2 : RefsState := add_to_refs "Ycommit".data "refs/tags/v1^\x7b\x7d".data optStd stTag1

/-- State after feeding the two replacement pairs of the replacement-keying example. -/
def stRep2 : RefsState :=
  add_to_refs "C".data "refs/replace/D".data optStd
    (add_to_refs "A".data "refs/replace/B".data optStd emptyState)

/-- One plain branch `b` whose id is `Cid`. -/
def stBranchB : RefsState := add_to_refs "Cid".data "refs/heads/b".data optStd emptyState

/-- State `stBranchB` after a replacement observation whose key is that same id `Cid`. -/
def stBranchB' : RefsState := add_to_refs "Z".data "refs/replace/Cid".data optStd stBranchB

/-- One replacement record (keyed by `B`, named `replaced`). -/
def stRepB : RefsState := add_to_refs "A".data "refs/replace/B".data optStd emptyState

/-- State `stRepB` after a branch observation whose effective name is `replaced`. -/
def stRepB' : RefsState := add_to_refs "X".data "refs/heads/replaced".data optStd stRepB

/-- State with one branch `x` (id `A`), from a successful reload. -/
def stA : RefsState :=
  (reload_refs "d".data "origin".data [] ⟨none, [("A".data, "refs/heads/x".data)], true⟩
    emptyState).state

/-- A source whose listing cannot be read at all. -/
def srcFail : Source := ⟨none, [], false⟩

/-- The repository configuration before any load. -/
def ls0 : LoadState := ⟨"d".data, "origin".data, [], false, emptyState⟩

/-- State after a first, non-forced `load_refs` whose reload failed. -/
def ls1 : LoadState := (load_refs false srcFail ls0).1

/-- Catalog with branches `a` and `b`, both currently at id `X`. -/
def st81 : RefsState :=
  (reload_refs "d".data "origin".data []
    ⟨none, [("X".data, "refs/heads/a".data), ("X".data, "refs/heads/b".data)], true⟩
    emptyState).state

/-- State `st81` after `lookupById X` has built its entry `[0, 1]`. -/
def st81q : RefsState := (get_ref_list "X".data st81).2

/-- Reload that moves branch `b` from id `X` to id `Y`. -/
def st82 : RefsState :=
  (reload_refs "d".data "origin".data []
    ⟨none, [("X".data, "refs/heads/a".data), ("Y".data, "refs/heads/b".data)], true⟩
    st81q).state

/-- State `st82` after the fresh `lookupById Y`. -/
def st82q : RefsState := (get_ref_list "Y".data st82).2

/-- Reload that moves both branches to id `Z`, emptying both entries. -/
def st83 : RefsState :=
  (reload_refs "d".data "origin".data []
    ⟨none, [("Z".data, "refs/heads/a".data), ("Z".data, "refs/heads/b".data)], true⟩
    st82q).state

def cmpTrueFirst (a b : Bool) : Ordering :=
  if a = b then Ordering.eq else if a then Ordering.lt else Ordering.gt

def cmpFalseFirst (a b : Bool) : Ordering :=
  if a = b then Ordering.eq else if a then Ordering.gt else Ordering.lt

def cmpName : List Char → List Char → Ordering
  | [], [] => Ordering.eq
  | [], _ :: _ => Ordering.lt
  | _ :: _, [] => Ordering.gt
  | a :: as, b :: bs =>
    if a.toNat < b.toNat then Ordering.lt
    else if b.toNat < a.toNat then Ordering.gt else cmpName as bs

/-- Modelled from the spec's words (comparator of §4.2): descending
priority `isTag` true first, `isAnnotatedTag` true first, `isHead` true
first, `isTracked` true first, `isReplace` true first, `isRemote` false
first, then lexicographic name, as a lexicographic chain of orderings. -/
def spec_compare (r1 r2 : Ref) : Ordering :=
  (cmpTrueFirst r1.tag r2.tag).then <|
  (cmpTrueFirst r1.ltag r2.ltag).then <|
  (cmpTrueFirst r1.head r2.head).then <|
  (cmpTrueFirst r1.tracked r2.tracked).then <|
  (cmpTrueFirst r1.replace r2.replace).then <|
  (cmpFalseFirst r1.remote r2.remote).then <|
  cmpName r1.name r2.name

def sign (i : Int) : Ordering :=
  if i < 0 then Ordering.lt else if i = 0 then Ordering.eq else Ordering.gt

/-- The laws a three-way comparator needs for lexicographic chaining:
swap-antisymmetry, transitivity of `lt`, and substitutivity of `eq`. -/
def IsLawfulCmp {α : Type} (c : α → α → Ordering) : Prop :=
  (∀ x y, c y x = (c x y).swap) ∧
  (∀ x y z, c x y = Ordering.lt → c y z = Ordering.lt → c x z = Ordering.lt) ∧
  (∀ x y z, c x y = Ordering.eq → c x z = c y z)

/-- The observation stream a reload ingests: the classified records, in
input order, skipped lines removed. -/
def obsOf (opt : RefOpt) (ps : List (List Char × List Char)) : List Ref :=
  ps.filterMap (fun p => classify_ref p.1 p.2 opt)

/-- The catalog names are pairwise distinct. -/
def NamesInj (st : RefsState) : Prop := (st.store.map Ref.name).Nodup

/-- The catalog lists every allocated record exactly once. -/
def CatalogPerm (st : RefsState) : Prop := st.catalog.Perm (List.range st.store.length)

/-- The value the last observation keyed `k` assigns, if any. -/
def lastVal (os : List Ref) (k : List Char) : Option Ref :=
  match os with
  | [] => none
  | o :: os' =>
    match lastVal os' k with
    | some v => some v
    | none => if o.name = k then some o else none

/-- The final value of a record named like `r`: the last observation with
that key, or `r` itself if the stream never touches it. -/
def updR (os : List Ref) (r : Ref) : Ref :=
  match lastVal os r.name with
  | some v => v
  | none => r

/-- The records a stream appends to a store whose names are `seen`:
one per first occurrence of a fresh key, carrying its final value. -/
def news (os : List Ref) (seen : List (List Char)) : List Ref :=
  match os with
  | [] => []
  | o :: os' =>
    if o.name ∈ seen then news os' seen
    else updR os' o :: news os' (o.name :: seen)

/-- A stream containing a replacement observation whose stored name
(`replaced`) collides with a later branch's effective name. -/
def src9 : Source :=
  ⟨none, [("A".data, "refs/replace/B".data), ("X".data, "refs/heads/replaced".data)], true⟩

def st91 : RefsState := (reload_refs "d".data "origin".data [] src9 emptyState).state

def st92 : RefsState := (reload_refs "d".data "origin".data [] src9 st91).state

/-- A replacement-free stream: an annotated tag (two lines), a branch and
a remote. -/
def src9g : Source :=
  ⟨none, [("T".data, "refs/tags/v1".data), ("C".data, "refs/tags/v1^\x7b\x7d".data),
          ("C".data, "refs/heads/main".data), ("R".data, "refs/remotes/origin".data)], true⟩

/-- Catalog with one branch `x` at id `A`, from a successful reload. -/
def st61 : RefsState :=
  (reload_refs "d".data "origin".data [] ⟨none, [("A".data, "refs/heads/x".data)], true⟩
    emptyState).state

/-- State `st61` after a successful reload over an empty listing, which
tombstones the branch. -/
def st62 : RefsState :=
  (reload_refs "d".data "origin".data [] ⟨none, [], true⟩ st61).state

def repRefB : Ref :=
  { name := sReplaced, id := "B".data, head := false, tag := false, ltag := false,
    remote := false, replace := true, tracked := false, valid := true }

def repRefD : Ref :=
  { name := sReplaced, id := "D".data, head := false, tag := false, ltag := false,
    remote := false, replace := true, tracked := false, valid := true }

/-- A catalog of six otherwise-equal records sharing id `X`: plain branch
`b`, plain remote `pr`, tag `t`, head `h`, remote-tracked `rt`, plain
branch `a`, listed in scrambled order. -/
def st5 : RefsState :=
  { store :=
      [ { name := "b".data, id := "X".data, head := false, tag := false, ltag := false,
          remote := false, replace := false, tracked := false, valid := true },
        { name := "pr".data, id := "X".data, head := false, tag := false, ltag := false,
          remote := true, replace := false, tracked := false, valid := true },
        { name := "t".data, id := "X".data, head := false, tag := true, ltag := false,
          remote := false, replace := false, tracked := false, valid := true },
        { name := "h".data, id := "X".data, head := true, tag := false, ltag := false,
          remote := false, replace := false, tracked := false, valid := true },
        { name := "rt".data, id := "X".data, head := false, tag := false, ltag := false,
          remote := true, replace := false, tracked := true, valid := true },
        { name := "a".data, id := "X".data, head := false, tag := false, ltag := false,
          remote := false, replace := false, tracked := false, valid := true } ],
    catalog := [0, 1, 2, 3, 4, 5], refsHead := none, refLists := [] }

/- ==== Theorems. ==== -/

/-- Claim C1, counterexample.  Feeding `("Xobj","refs/tags/v1")` then
`("Ycommit","refs/tags/v1" + peel marker)` through `add_to_refs` does
collapse to a single record named `v1` with final id `Ycommit`, but the
claim's `isAnnotatedTag = true` (the `ltag` flag) is false: `add_to_refs`
overwrites every flag on each observation, so the second (peeled)
observation, classified with `ltag = false`, erases the flag the first
observation set. -/
theorem C1_cex :
    stTag2.store.length = 1 ∧ (getRef stTag2 0).ltag = false := by decide

/-- Claim C1, amended: after feeding `("Xobj","refs/tags/v1")` followed by
`("Ycommit","refs/tags/v1" + peel marker)` through the classifier/upsert
path, the catalog contains exactly one record named `v1` with `tag = true`,
final id `Ycommit`, and `ltag = false` — the annotated-tag flag set by the
first observation does NOT survive: last-write-wins applies to the flags as
well, and the peeled observation stores `ltag = false`. -/
theorem C1_thm :
    stTag2.store = [{ name := "v1".data, id := "Ycommit".data, head := false, tag := true,
                      ltag := false, remote := false, replace := false, tracked := false,
                      valid := true }] ∧
    stTag2.catalog = [0] ∧
    (getRef stTag1 0).ltag = true := by decide

/-- Claim C7: feeding `("A","refs/replace/B")` and `("C","refs/replace/D")`
into an empty catalog yields exactly two distinct records, both with stored
name `replaced` and `replace = true`, one with id `B` and one with id `D`:
replacement records are matched by id, so the second observation (key `D`)
does not match the first record (id `B`) and a second record is created. -/
theorem C7_thm :
    stRep2.store.length = 2 ∧
    getRef stRep2 0 ≠ getRef stRep2 1 ∧
    (getRef stRep2 0).name = sReplaced ∧ (getRef stRep2 1).name = sReplaced ∧
    (getRef stRep2 0).id = "B".data ∧ (getRef stRep2 1).id = "D".data ∧
    (getRef stRep2 0).replace = true ∧ (getRef stRep2 1).replace = true := by decide

/-- Claim C4, counterexample.  Upsert matching is not segregated by kind:
feeding `("Cid","refs/heads/b")` (a non-replacement record with id `Cid`)
and then the replacement observation `("Z","refs/replace/Cid")` leaves a
single record — the replacement observation matched the non-replacement
record by id and mutated it into a replacement record — contradicting the
claim that a replacement observation never matches or mutates a
non-replacement record. -/
theorem C4_cex :
    stBranchB.store.length = 1 ∧ (getRef stBranchB 0).replace = false ∧
    (getRef stBranchB 0).id = "Cid".data ∧
    stBranchB'.store.length = 1 ∧ (getRef stBranchB' 0).replace = true ∧
    (getRef stBranchB' 0).name = "b".data := by decide

/-- Claim C4, amended: the upsert scan is keyed purely by the comparison
value, regardless of the matched record's own replace flag — a replacement
observation matches the first record in catalog order whose id equals the
replacement key and mutates it in place whatever its kind (first
conjunct, stated for any state), and dually a name-keyed observation can
match and mutate a replacement record named `replaced` (final conjuncts:
concrete runs of both cross-kind mutations). -/
theorem C4_thm :
    (∀ (st : RefsState) (id name : List Char) (opt : RefOpt) (o : Ref) (i : Nat),
      classify_ref id name opt = some o → findPos o st = some i →
      (add_to_refs id name opt st).store = st.store.set i { o with name := (getRef st i).name } ∧
      (add_to_refs id name opt st).store.length = st.store.length) ∧
    (stBranchB'.store.length = 1 ∧ (getRef stBranchB' 0).replace = true ∧
      (getRef stBranchB' 0).id = "Cid".data) ∧
    (stRepB.store.length = 1 ∧ (getRef stRepB 0).replace = true ∧
      stRepB'.store.length = 1 ∧ (getRef stRepB' 0).replace = false ∧
      (getRef stRepB' 0).id = "X".data ∧ (getRef stRepB' 0).name = sReplaced) := by
  refine ⟨?_, by decide, by decide⟩
  intro st id name opt o i hc hf
  simp [add_to_refs, hc, applyObs, hf, List.length_set]

/-- Witness for `C4_thm`: its universally quantified first conjunct applied
to the concrete replacement observation of the counterexample state. -/
theorem C4_witness :
    (add_to_refs "Z".data "refs/replace/Cid".data optStd stBranchB).store =
      stBranchB.store.set 0
        { name := (getRef stBranchB 0).name, id := "Cid".data, head := false, tag := false,
          ltag := false, remote := false, replace := true, tracked := false, valid := true } :=
  (C4_thm.1 stBranchB "Z".data "refs/replace/Cid".data optStd
    { name := sReplaced, id := "Cid".data, head := false, tag := false, ltag := false,
      remote := false, replace := true, tracked := false, valid := true } 0
    (by decide) (by decide)).1

/-- Claim C2, counterexample.  After a successful reload (one branch `x`)
followed by a reload whose source fails, the catalog retains the record
with its valid flag cleared — but `foreach_ref` (which filters on a
non-empty id, not on validity) still visits it: the catalog does not look
empty, contradicting the claim that a subsequent forEach visits no
records. -/
theorem C2_cex :
    (reload_refs "d".data "origin".data [] srcFail stA).status = Status.ERR ∧
    (getRef (reload_refs "d".data "origin".data [] srcFail stA).state 0).valid = false ∧
    foreach_ref (reload_refs "d".data "origin".data [] srcFail stA).state (fun _ => true)
      = [0] := by decide

/-- Claim C2, amended: if a reload fails because the external listing
cannot be read (`io_run_load` delivers nothing and returns an error), the
reload returns an error and the catalog is exactly the staled pre-reload
catalog: every record's valid flag is cleared and the head pointer is
dropped, but names, ids, catalog order and index entries are untouched —
and since `foreach_ref` filters only on a non-empty id, the set of records
it can visit is unchanged (the catalog does not look empty). -/
theorem C2_thm (g r h : List Char) (o : Option (List Char)) (st : RefsState)
    (hg : g ≠ []) :
    reload_refs g r h ⟨o, [], false⟩ st =
      ⟨stale_refs st, resolve_head h o, Status.ERR⟩ ∧
    visibleIdx (stale_refs st) = visibleIdx st ∧
    (∀ i, (getRef (stale_refs st) i).valid = false) := by
  refine ⟨?_, ?_, ?_⟩
  · simp [reload_refs, hg, ingest]
  · unfold visibleIdx
    refine List.filter_congr ?_
    intro i _
    simp [getRef, stale_refs, List.getD_eq_getElem?_getD, List.getElem?_map]
    cases st.store[i]? <;> simp [dRef]
  · intro i
    simp [getRef, stale_refs, List.getD_eq_getElem?_getD, List.getElem?_map]
    cases st.store[i]? <;> simp [dRef]

/-- Witness for `C2_thm` at the concrete one-branch state. -/
theorem C2_witness :
    reload_refs "d".data "origin".data [] ⟨none, [], false⟩ stA =
      ⟨stale_refs stA, resolve_head [] none, Status.ERR⟩ ∧
    visibleIdx (stale_refs stA) = visibleIdx stA ∧
    (∀ i, (getRef (stale_refs stA) i).valid = false) :=
  C2_thm "d".data "origin".data [] none stA (by decide)

/-- Claim C3, amended: a non-forced `load_refs` is a no-op success
whenever ANY earlier `load_refs` call has run — successful or not —
because the static `loaded` flag is set before `reload_refs` is invoked
and regardless of its result (first and second conjuncts). -/
theorem C3_thm :
    (∀ (ls : LoadState) (src : Source), ls.loaded = true →
      load_refs false src ls = (ls, Status.OK)) ∧
    (∀ (ls : LoadState) (src : Source), (load_refs false src ls).1.loaded = true) := by
  constructor
  · intro ls src h
    simp [load_refs, h]
  · intro ls src
    by_cases h : ls.loaded = true
    · simp [load_refs, h]
    · simp at h
      simp [load_refs, h]

/-- Claim C3, counterexample.  The first non-forced `load_refs` fails
(source failure, no record ingested), yet the next non-forced `load_refs`
— offered a working source that would create a record — returns success
without reloading: the catalog stays empty.  This contradicts the claim
that after only failed reloads the next non-forced `load_refs` performs a
full reload. -/
theorem C3_cex :
    (load_refs false srcFail ls0).2 = Status.ERR ∧
    ls1.loaded = true ∧
    ls1.rstate.store.length = 0 ∧
    load_refs false ⟨none, [("A".data, "refs/heads/x".data)], true⟩ ls1 =
      (ls1, Status.OK) := by decide

/-- Witness for `C3_thm`: its first conjunct applied to the concrete
post-failure state `ls1`, whose `loaded` flag is true. -/
theorem C3_witness :
    load_refs false ⟨none, [("A".data, "refs/heads/x".data)], true⟩ ls1 =
      (ls1, Status.OK) :=
  C3_thm.1 ls1 ⟨none, [("A".data, "refs/heads/x".data)], true⟩ (by decide)

/-- Claim C8: after `lookupById X` built the entry `[r1, r2]` (store
indices `[0, 1]`), a reload that changes `r2`'s id to `Y` prunes the entry
in place to `[0]`; the subsequent `lookupById X` is answered from the
cache, returning exactly that entry with the state unchanged (no rebuild);
a fresh `lookupById Y` builds a new entry containing `r2` (index `1`); and
a further reload that empties both entries retains them as empty lists
rather than deleting them, so `lookupById X` then answers `[]` from the
cache. -/
theorem C8_thm :
    (get_ref_list "X".data st81).1 = some ⟨"X".data, [0, 1]⟩ ∧
    st82.refLists = [⟨"X".data, [0]⟩] ∧
    get_ref_list "X".data st82 = (some ⟨"X".data, [0]⟩, st82) ∧
    (get_ref_list "Y".data st82).1 = some ⟨"Y".data, [1]⟩ ∧
    st82q.refLists = [⟨"X".data, [0]⟩, ⟨"Y".data, [1]⟩] ∧
    st83.refLists = [⟨"X".data, []⟩, ⟨"Y".data, []⟩] ∧
    get_ref_list "X".data st83 = (some ⟨"X".data, []⟩, st83) := by decide

theorem applyObs_refLists (st : RefsState) (o : Ref) :
    (applyObs st o).refLists = st.refLists := by
  unfold applyObs
  cases findPos o st <;> rfl

theorem add_to_refs_refLists (id name : List Char) (opt : RefOpt) (st : RefsState) :
    (add_to_refs id name opt st).refLists = st.refLists := by
  unfold add_to_refs
  cases classify_ref id name opt with
  | none => rfl
  | some o => exact applyObs_refLists st o

theorem ingest_refLists (opt : RefOpt) (ps : List (List Char × List Char)) (st : RefsState) :
    (ingest opt ps st).refLists = st.refLists := by
  induction ps generalizing st with
  | nil => rfl
  | cons p ps ih =>
    show (ingest opt ps (add_to_refs p.1 p.2 opt st)).refLists = st.refLists
    rw [ih, add_to_refs_refLists]

theorem tombstone_refs_refLists (s : RefsState) :
    (tombstone_refs s).refLists = s.refLists := rfl

theorem stale_refs_refLists (s : RefsState) : (stale_refs s).refLists = s.refLists := rfl

theorem sort_catalog_refLists (s : RefsState) :
    (sort_catalog s).refLists = s.refLists := rfl

theorem prune_ref_lists_refLists (s : RefsState) :
    (prune_ref_lists s).refLists = s.refLists.map (pruneList s) := rfl

/-- Whatever a reload does to the index cache is a per-entry map that
preserves the key and can only shrink the member list. -/
theorem reload_refs_refLists_shape (g r h : List Char) (src : Source) (st : RefsState) :
    ∃ f : RefList → RefList, (∀ l, (f l).id = l.id ∧ (f l).refs.Sublist l.refs) ∧
      (reload_refs g r h src st).state.refLists = st.refLists.map f := by
  unfold reload_refs
  by_cases hg : g = []
  · exact ⟨id, fun l => ⟨rfl, List.Sublist.refl _⟩, by simp [hg]⟩
  · by_cases hok : src.ok
    · refine ⟨pruneList (tombstone_refs (ingest { remote := r, head := resolve_head h src.headOut }
        src.pairs (stale_refs st))), fun l => ⟨rfl, List.filter_sublist _⟩, ?_⟩
      simp only [hg, hok, if_true, if_false, ite_true, ite_false]
      rw [sort_catalog_refLists, prune_ref_lists_refLists, tombstone_refs_refLists,
        ingest_refLists, stale_refs_refLists]
    · refine ⟨id, fun l => ⟨rfl, List.Sublist.refl _⟩, ?_⟩
      simp only [hg, ite_false]
      rw [if_neg (by simp [hok])]
      show (ingest _ _ (stale_refs st)).refLists = _
      rw [ingest_refLists, stale_refs_refLists, List.map_id]

/-- Claim C10: (1) once an entry for an id is stored, `get_ref_list` for
that id returns that same stored entry with the state untouched (no
rescan of the catalog and nothing added to the entry); (2) a
`get_ref_list` miss only ever appends a new entry, leaving every existing
entry as a prefix; (3) the manual insert entry point never touches the
index cache; (4) a reload preserves the entry count and every entry's key,
and can only shrink an entry's list (it becomes a sublist of the old
one). -/
theorem C10_thm :
    (∀ (st : RefsState) (q : List Char) (e : RefList),
      st.refLists.find? (fun l => l.id = q) = some e →
      get_ref_list q st = (some e, st)) ∧
    (∀ (st : RefsState) (q : List Char),
      st.refLists <+: (get_ref_list q st).2.refLists) ∧
    (∀ (id name : List Char) (opt : RefOpt) (st : RefsState),
      (add_to_refs id name opt st).refLists = st.refLists) ∧
    (∀ (g r h : List Char) (src : Source) (st : RefsState),
      (reload_refs g r h src st).state.refLists.length = st.refLists.length ∧
      ∀ i, ((reload_refs g r h src st).state.refLists.getD i ⟨[], []⟩).id =
              (st.refLists.getD i ⟨[], []⟩).id ∧
            ((reload_refs g r h src st).state.refLists.getD i ⟨[], []⟩).refs.Sublist
              (st.refLists.getD i ⟨[], []⟩).refs) := by
  refine ⟨?_, ?_, add_to_refs_refLists, ?_⟩
  · intro st q e hfind
    unfold get_ref_list
    rw [hfind]
  · intro st q
    unfold get_ref_list
    cases hfind : st.refLists.find? (fun l => l.id = q) with
    | some l => exact List.prefix_refl _
    | none =>
      by_cases hms : idMatches q st = []
      · simp [hms]
      · simp [hms]
  · intro g r h src st
    obtain ⟨f, hf, heq⟩ := reload_refs_refLists_shape g r h src st
    rw [heq]
    refine ⟨st.refLists.length_map _, ?_⟩
    intro i
    rw [List.getD_eq_getElem?_getD, List.getD_eq_getElem?_getD, List.getElem?_map]
    cases st.refLists[i]? with
    | none => exact ⟨rfl, List.Sublist.refl _⟩
    | some l => exact ⟨(hf l).1, (hf l).2⟩

/-- Witness for `C10_thm`: its cached-hit conjunct applied to the concrete
state `st82`, whose cache holds the pruned entry for id `X`. -/
theorem C10_witness :
    get_ref_list "X".data st82 = (some ⟨"X".data, [0]⟩, st82) :=
  C10_thm.1 st82 "X".data ⟨"X".data, [0]⟩ (by decide)

theorem sign_step_trueFirst (a b : Bool) (k : Int) :
    sign (if a ≠ b then boolSub b a else k) = (cmpTrueFirst a b).then (sign k) := by
  cases a <;> cases b <;> simp [boolSub, cmpTrueFirst, sign, Ordering.then]

theorem sign_step_falseFirst (a b : Bool) (k : Int) :
    sign (if a ≠ b then boolSub a b else k) = (cmpFalseFirst a b).then (sign k) := by
  cases a <;> cases b <;> simp [boolSub, cmpFalseFirst, sign, Ordering.then]

theorem sign_strcmpL (x y : List Char) : sign (strcmpL x y) = cmpName x y := by
  induction x generalizing y with
  | nil => cases y <;> simp [strcmpL, cmpName, sign]
  | cons a as ih =>
    cases y with
    | nil => simp [strcmpL, cmpName, sign]
    | cons b bs =>
      by_cases h1 : a.toNat < b.toNat
      · simp [strcmpL, cmpName, h1, sign]
      · by_cases h2 : b.toNat < a.toNat
        · simp [strcmpL, cmpName, h1, h2, sign]
        · simp [strcmpL, cmpName, h1, h2, ih]

/-- The comparator refines the spec's chain: the sign of `compare_refs` is
exactly the spec's lexicographic ordering. -/
theorem sign_compare_refs (r1 r2 : Ref) : sign (compare_refs r1 r2) = spec_compare r1 r2 := by
  unfold compare_refs spec_compare
  rw [sign_step_trueFirst, sign_step_trueFirst, sign_step_trueFirst, sign_step_trueFirst,
    sign_step_trueFirst, sign_step_falseFirst, sign_strcmpL]

theorem sign_eq_lt_iff (i : Int) : sign i = Ordering.lt ↔ i < 0 := by
  unfold sign
  split_ifs with h1 h2
  · simp [h1]
  · constructor
    · intro hc
      exact absurd hc (by simp)
    · intro h
      exact absurd h (by omega)
  · constructor
    · intro hc
      exact absurd hc (by simp)
    · intro h
      exact absurd h h1

theorem sign_eq_eq_iff (i : Int) : sign i = Ordering.eq ↔ i = 0 := by
  unfold sign
  split_ifs with h1 h2
  · constructor
    · intro hc
      exact absurd hc (by simp)
    · intro h
      exact absurd h (by omega)
  · simp [h2]
  · constructor
    · intro hc
      exact absurd hc (by simp)
    · intro h
      exact absurd h h2

theorem sign_eq_gt_iff (i : Int) : sign i = Ordering.gt ↔ 0 < i := by
  unfold sign
  split_ifs with h1 h2
  · constructor
    · intro hc
      exact absurd hc (by simp)
    · intro h
      exact absurd h (by omega)
  · constructor
    · intro hc
      exact absurd hc (by simp)
    · intro h
      exact absurd h (by omega)
  · constructor
    · intro _
      omega
    · intro _
      rfl

theorem ordering_then_eq_eq (o1 o2 : Ordering) :
    o1.then o2 = Ordering.eq ↔ o1 = Ordering.eq ∧ o2 = Ordering.eq := by
  cases o1 <;> simp [Ordering.then]

theorem cmpTrueFirst_eq_iff (a b : Bool) : cmpTrueFirst a b = Ordering.eq ↔ a = b := by
  cases a <;> cases b <;> simp [cmpTrueFirst]

theorem cmpFalseFirst_eq_iff (a b : Bool) : cmpFalseFirst a b = Ordering.eq ↔ a = b := by
  cases a <;> cases b <;> simp [cmpFalseFirst]

theorem cmpName_eq_iff (x y : List Char) : cmpName x y = Ordering.eq ↔ x = y := by
  induction x generalizing y with
  | nil => cases y <;> simp [cmpName]
  | cons a as ih =>
    cases y with
    | nil => simp [cmpName]
    | cons b bs =>
      by_cases h1 : a.toNat < b.toNat
      · simp only [cmpName, h1, if_true, ite_true]
        constructor
        · intro hc
          exact absurd hc (by simp)
        · rintro ⟨rfl, rfl⟩
          exact absurd h1 (lt_irrefl _)
      · by_cases h2 : b.toNat < a.toNat
        · simp only [cmpName, h1, h2, ite_false, ite_true, if_false]
          constructor
          · intro hc
            exact absurd hc (by simp)
          · rintro ⟨rfl, rfl⟩
            exact absurd h2 (lt_irrefl _)
        · have hn : a.toNat = b.toNat := by omega
          have hab : a = b := Char.ext (UInt32.ext hn)
          simp [cmpName, h1, h2, ih, hab]

theorem getRef_stale (st : RefsState) (i : Nat) :
    getRef (stale_refs st) i = { getRef st i with valid := false } := by
  unfold getRef stale_refs
  rw [List.getD_eq_getElem?_getD, List.getD_eq_getElem?_getD, List.getElem?_map]
  cases st.store[i]? <;> rfl

theorem getRef_tombstone (st : RefsState) (i : Nat) :
    getRef (tombstone_refs st) i =
      if (getRef st i).valid then getRef st i else { getRef st i with id := [] } := by
  unfold getRef tombstone_refs
  rw [List.getD_eq_getElem?_getD, List.getD_eq_getElem?_getD, List.getElem?_map]
  cases st.store[i]? with
  | none => rfl
  | some a => rfl

theorem stale_store_length (st : RefsState) :
    (stale_refs st).store.length = st.store.length := List.length_map _ _

theorem tombstone_store_length (st : RefsState) :
    (tombstone_refs st).store.length = st.store.length := List.length_map _ _

theorem sort_catalog_store (s : RefsState) : (sort_catalog s).store = s.store := rfl

theorem prune_ref_lists_store (s : RefsState) : (prune_ref_lists s).store = s.store := rfl

theorem applyObs_store_length_le (st : RefsState) (o : Ref) :
    st.store.length ≤ (applyObs st o).store.length := by
  unfold applyObs
  cases findPos o st with
  | some i => simp
  | none => simp

theorem add_to_refs_store_length_le (id name : List Char) (opt : RefOpt) (st : RefsState) :
    st.store.length ≤ (add_to_refs id name opt st).store.length := by
  unfold add_to_refs
  cases classify_ref id name opt with
  | none => exact Nat.le_refl _
  | some o => exact applyObs_store_length_le st o

theorem ingest_store_length_le (opt : RefOpt) (ps : List (List Char × List Char))
    (st : RefsState) : st.store.length ≤ (ingest opt ps st).store.length := by
  induction ps generalizing st with
  | nil => exact Nat.le_refl _
  | cons p ps ih =>
    exact Nat.le_trans (add_to_refs_store_length_le p.1 p.2 opt st)
      (ih (add_to_refs p.1 p.2 opt st))

theorem applyObs_name (st : RefsState) (o : Ref) (i : Nat) (hi : i < st.store.length) :
    (getRef (applyObs st o) i).name = (getRef st i).name := by
  unfold applyObs
  cases hf : findPos o st with
  | some j =>
    show ((st.store.set j { o with name := (getRef st j).name }).getD i dRef).name =
      (getRef st i).name
    rw [List.getD_eq_getElem?_getD, List.getElem?_set]
    by_cases h1 : j = i
    · subst h1
      rw [if_pos rfl, if_pos (by omega)]
      show ({ o with name := (getRef st j).name } : Ref).name = _
      rfl
    · rw [if_neg h1]
      unfold getRef
      rw [List.getD_eq_getElem?_getD]
  | none =>
    show (((st.store ++ [o]).getD i dRef)).name = (getRef st i).name
    rw [List.getD_append _ _ _ _ hi]
    rfl

theorem add_to_refs_name (id name : List Char) (opt : RefOpt) (st : RefsState) (i : Nat)
    (hi : i < st.store.length) :
    (getRef (add_to_refs id name opt st) i).name = (getRef st i).name := by
  unfold add_to_refs
  cases classify_ref id name opt with
  | none => rfl
  | some o => exact applyObs_name st o i hi

theorem ingest_name (opt : RefOpt) (ps : List (List Char × List Char)) (st : RefsState)
    (i : Nat) (hi : i < st.store.length) :
    (getRef (ingest opt ps st) i).name = (getRef st i).name := by
  induction ps generalizing st with
  | nil => rfl
  | cons p ps ih =>
    have h1 : i < (add_to_refs p.1 p.2 opt st).store.length :=
      Nat.lt_of_lt_of_le hi (add_to_refs_store_length_le p.1 p.2 opt st)
    calc (getRef (ingest opt ps (add_to_refs p.1 p.2 opt st)) i).name
        = (getRef (add_to_refs p.1 p.2 opt st) i).name := ih _ h1
      _ = (getRef st i).name := add_to_refs_name p.1 p.2 opt st i hi

theorem reload_success_state (g r h : List Char) (src : Source) (st : RefsState)
    (hg : g ≠ []) (hok : src.ok = true) :
    (reload_refs g r h src st).state =
      sort_catalog (prune_ref_lists (tombstone_refs
        (ingest { remote := r, head := resolve_head h src.headOut } src.pairs
          (stale_refs st)))) := by
  simp [reload_refs, hg, hok]

theorem mem_foreachGo (st : RefsState) (v : Ref → Bool) (l : List Nat) (i : Nat)
    (h : i ∈ foreachGo st v l) : (getRef st i).id ≠ [] := by
  induction l with
  | nil => cases h
  | cons j rest ih =>
    unfold foreachGo at h
    by_cases hid : (getRef st j).id ≠ []
    · rw [if_pos hid] at h
      by_cases hv : v (getRef st j) = true
      · rw [if_pos hv] at h
        rcases List.mem_cons.mp h with rfl | h2
        · exact hid
        · exact ih h2
      · rw [if_neg hv] at h
        have : i = j := List.mem_singleton.mp h
        subst this
        exact hid
    · rw [if_neg hid] at h
      exact ih h

theorem mem_sortIdx (st : RefsState) (l : List Nat) (i : Nat) :
    i ∈ sortIdx st l ↔ i ∈ l := (List.perm_insertionSort _ l).mem_iff

/-- Membership in a `get_ref_list` answer comes either from a cached
entry for the query or from a fresh catalog scan matching the query. -/
theorem get_ref_list_mem (q : List Char) (s : RefsState) (l : RefList) (i : Nat)
    (hget : (get_ref_list q s).1 = some l) (hmem : i ∈ l.refs) :
    (∃ l1 ∈ s.refLists, l1.id = q ∧ i ∈ l1.refs) ∨ q = (getRef s i).id := by
  unfold get_ref_list at hget
  split at hget
  · next l1 hfind =>
    simp at hget
    subst hget
    have hp := List.find?_some hfind
    exact Or.inl ⟨l1, List.mem_of_find?_eq_some hfind, of_decide_eq_true hp, hmem⟩
  · next hfind =>
    split at hget
    · cases hget
    · simp at hget
      have hmem2 : i ∈ sortIdx s (idMatches q s) := by
        rw [← hget] at hmem
        exact hmem
      have hmem3 : i ∈ idMatches q s := (mem_sortIdx s _ i).mp hmem2
      exact Or.inr (of_decide_eq_true (List.mem_filter.mp hmem3).2)

theorem ordering_then_swap (o1 o2 : Ordering) :
    (o1.then o2).swap = o1.swap.then o2.swap := by
  cases o1 <;> rfl

theorem ordering_then_eq_lt (o1 o2 : Ordering) :
    o1.then o2 = Ordering.lt ↔ o1 = Ordering.lt ∨ (o1 = Ordering.eq ∧ o2 = Ordering.lt) := by
  cases o1 <;> simp [Ordering.then]

theorem lawful_then {α : Type} {c1 c2 : α → α → Ordering}
    (h1 : IsLawfulCmp c1) (h2 : IsLawfulCmp c2) :
    IsLawfulCmp (fun a b => (c1 a b).then (c2 a b)) := by
  obtain ⟨h1s, h1t, h1e⟩ := h1
  obtain ⟨h2s, h2t, h2e⟩ := h2
  refine ⟨?_, ?_, ?_⟩
  · intro x y
    show (c1 y x).then (c2 y x) = ((c1 x y).then (c2 x y)).swap
    rw [h1s, h2s, ordering_then_swap]
  · intro x y z hxy hyz
    simp only [ordering_then_eq_lt] at hxy hyz ⊢
    rcases hxy with h1xy | ⟨h1xy, h2xy⟩ <;> rcases hyz with h1yz | ⟨h1yz, h2yz⟩
    · exact Or.inl (h1t _ _ _ h1xy h1yz)
    · have hzy : c1 z y = Ordering.eq := by rw [h1s y z, h1yz]; rfl
      have hzx : c1 z x = c1 y x := h1e z y x hzy
      have hyx : c1 y x = Ordering.gt := by rw [h1s x y, h1xy]; rfl
      have : c1 x z = Ordering.lt := by rw [h1s z x, hzx, hyx]; rfl
      exact Or.inl this
    · exact Or.inl (by rw [h1e x y z h1xy]; exact h1yz)
    · exact Or.inr ⟨by rw [h1e x y z h1xy]; exact h1yz, h2t _ _ _ h2xy h2yz⟩
  · intro x y z hxy
    simp only [ordering_then_eq_eq] at hxy
    show (c1 x z).then (c2 x z) = (c1 y z).then (c2 y z)
    rw [h1e x y z hxy.1, h2e x y z hxy.2]

theorem lawful_comap {α β : Type} (f : α → β) {c : β → β → Ordering} (h : IsLawfulCmp c) :
    IsLawfulCmp (fun a b => c (f a) (f b)) :=
  ⟨fun x y => h.1 (f x) (f y), fun _ _ _ hx hy => h.2.1 _ _ _ hx hy,
   fun _ _ _ hx => h.2.2 _ _ _ hx⟩

theorem lawful_cmpTrueFirst : IsLawfulCmp cmpTrueFirst :=
  ⟨by decide, by decide, by decide⟩

theorem lawful_cmpFalseFirst : IsLawfulCmp cmpFalseFirst :=
  ⟨by decide, by decide, by decide⟩

theorem cmpName_swap (x y : List Char) : cmpName y x = (cmpName x y).swap := by
  induction x generalizing y with
  | nil => cases y <;> rfl
  | cons a as ih =>
    cases y with
    | nil => rfl
    | cons b bs =>
      show cmpName (b :: bs) (a :: as) = (cmpName (a :: as) (b :: bs)).swap
      unfold cmpName
      rcases Nat.lt_trichotomy a.toNat b.toNat with h | h | h
      · rw [if_neg (by omega), if_pos h, if_pos h]
        rfl
      · rw [if_neg (by omega), if_neg (by omega), if_neg (by omega), if_neg (by omega)]
        exact ih bs
      · rw [if_pos h, if_neg (by omega), if_pos h]
        rfl

theorem cmpName_lt_trans (x y z : List Char) (hxy : cmpName x y = Ordering.lt)
    (hyz : cmpName y z = Ordering.lt) : cmpName x z = Ordering.lt := by
  induction x generalizing y z with
  | nil =>
    cases z with
    | cons c cs => rfl
    | nil =>
      cases y with
      | nil => cases hxy
      | cons b bs => cases hyz
  | cons a as ih =>
    cases y with
    | nil => cases hxy
    | cons b bs =>
      cases z with
      | nil => cases hyz
      | cons c cs =>
        unfold cmpName at hxy hyz ⊢
        by_cases hab : a.toNat < b.toNat
        · by_cases hbc : b.toNat < c.toNat
          · rw [if_pos (by omega)]
          · rw [if_neg hbc] at hyz
            by_cases hcb : c.toNat < b.toNat
            · rw [if_pos hcb] at hyz
              cases hyz
            · rw [if_neg hcb] at hyz
              rw [if_pos (by omega)]
        · rw [if_neg hab] at hxy
          by_cases hba : b.toNat < a.toNat
          · rw [if_pos hba] at hxy
            cases hxy
          · rw [if_neg hba] at hxy
            by_cases hbc : b.toNat < c.toNat
            · rw [if_pos (by omega)]
            · rw [if_neg hbc] at hyz
              by_cases hcb : c.toNat < b.toNat
              · rw [if_pos hcb] at hyz
                cases hyz
              · rw [if_neg hcb] at hyz
                rw [if_neg (by omega), if_neg (by omega)]
                exact ih bs cs hxy hyz

theorem lawful_cmpName : IsLawfulCmp cmpName :=
  ⟨cmpName_swap, cmpName_lt_trans,
   fun x y z hx => by rw [(cmpName_eq_iff x y).mp hx]⟩

theorem lawful_spec_compare : IsLawfulCmp spec_compare := by
  have l1 := lawful_comap Ref.tag lawful_cmpTrueFirst
  have l2 := lawful_comap Ref.ltag lawful_cmpTrueFirst
  have l3 := lawful_comap Ref.head lawful_cmpTrueFirst
  have l4 := lawful_comap Ref.tracked lawful_cmpTrueFirst
  have l5 := lawful_comap Ref.replace lawful_cmpTrueFirst
  have l6 := lawful_comap Ref.remote lawful_cmpFalseFirst
  have l7 := lawful_comap Ref.name lawful_cmpName
  exact lawful_then l1 (lawful_then l2 (lawful_then l3 (lawful_then l4
    (lawful_then l5 (lawful_then l6 l7)))))

theorem refLe_iff_spec (st : RefsState) (i j : Nat) :
    refLe st i j ↔ spec_compare (getRef st i) (getRef st j) ≠ Ordering.gt := by
  unfold refLe
  rw [← sign_compare_refs]
  constructor
  · intro h hgt
    rw [sign_eq_gt_iff] at hgt
    omega
  · intro h
    by_contra hc
    exact h ((sign_eq_gt_iff _).mpr (by omega))

theorem spec_ne_gt_trans (r1 r2 r3 : Ref)
    (h12 : spec_compare r1 r2 ≠ Ordering.gt) (h23 : spec_compare r2 r3 ≠ Ordering.gt) :
    spec_compare r1 r3 ≠ Ordering.gt := by
  obtain ⟨hs, ht, he⟩ := lawful_spec_compare
  cases hc12 : spec_compare r1 r2 with
  | gt => exact absurd hc12 h12
  | eq => rw [he r1 r2 r3 hc12]; exact h23
  | lt =>
    cases hc23 : spec_compare r2 r3 with
    | gt => exact absurd hc23 h23
    | lt =>
      have := ht r1 r2 r3 hc12 hc23
      rw [this]
      decide
    | eq =>
      have h32 : spec_compare r3 r2 = Ordering.eq := by rw [hs r2 r3, hc23]; rfl
      have h1 : spec_compare r3 r1 = spec_compare r2 r1 := he r3 r2 r1 h32
      have h21 : spec_compare r2 r1 = Ordering.gt := by rw [hs r1 r2, hc12]; rfl
      have h13 : spec_compare r1 r3 = Ordering.lt := by rw [hs r3 r1, h1, h21]; rfl
      rw [h13]
      decide

theorem refLe_isTotal (st : RefsState) : IsTotal Nat (refLe st) := ⟨by
  intro i j
  rw [refLe_iff_spec, refLe_iff_spec]
  by_cases h : spec_compare (getRef st i) (getRef st j) = Ordering.gt
  · right
    rw [lawful_spec_compare.1, h]
    decide
  · left
    exact h⟩

theorem refLe_isTrans (st : RefsState) : IsTrans Nat (refLe st) := ⟨by
  intro i j k hij hjk
  rw [refLe_iff_spec] at hij hjk ⊢
  exact spec_ne_gt_trans _ _ _ hij hjk⟩

theorem ingest_eq_obs_fold (opt : RefOpt) (ps : List (List Char × List Char)) (st : RefsState) :
    ingest opt ps st = (obsOf opt ps).foldl applyObs st := by
  induction ps generalizing st with
  | nil => rfl
  | cons p ps ih =>
    show ingest opt ps (add_to_refs p.1 p.2 opt st) = _
    unfold add_to_refs
    rw [show obsOf opt (p :: ps) = (classify_ref p.1 p.2 opt).toList ++ obsOf opt ps from by
      unfold obsOf
      rw [List.filterMap_cons]
      cases classify_ref p.1 p.2 opt <;> rfl]
    cases classify_ref p.1 p.2 opt with
    | none => exact ih st
    | some o => exact ih (applyObs st o)

theorem classify_replace_false (id name : List Char) (opt : RefOpt) (o : Ref)
    (hnr : sRefsReplace.isPrefixOf name = false) (hc : classify_ref id name opt = some o) :
    o.replace = false := by
  unfold classify_ref at hc
  split_ifs at hc with h1 h2 h3 h4 h5 h6
  all_goals try (cases hc)
  all_goals try rfl
  rw [h3] at hnr
  cases hnr

theorem classify_valid_true (id name : List Char) (opt : RefOpt) (o : Ref)
    (hc : classify_ref id name opt = some o) : o.valid = true := by
  unfold classify_ref at hc
  split_ifs at hc
  all_goals try (cases hc)
  all_goals rfl

theorem getRef_name_eq_names_getElem (st : RefsState) (i : Nat) (hi : i < st.store.length) :
    (st.store.map Ref.name)[i]? = some (getRef st i).name := by
  rw [List.getElem?_map]
  unfold getRef
  rw [List.getD_eq_getElem?_getD, List.getElem?_eq_getElem hi]
  rfl

theorem namesInj_index (st : RefsState) (hinj : NamesInj st) (i j : Nat)
    (hi : i < st.store.length) (hj : j < st.store.length)
    (h : (getRef st i).name = (getRef st j).name) : i = j := by
  have h2 : (st.store.map Ref.name)[i]? = (st.store.map Ref.name)[j]? := by
    rw [getRef_name_eq_names_getElem st i hi, getRef_name_eq_names_getElem st j hj, h]
  exact List.getElem?_inj (by simpa using hi) hinj h2

theorem findPos_none (st : RefsState) (o : Ref) (ho : o.replace = false)
    (hperm : CatalogPerm st)
    (habs : ∀ i, i < st.store.length → (getRef st i).name ≠ o.name) :
    findPos o st = none := by
  unfold findPos
  rw [List.find?_eq_none]
  intro j hj
  have hjr : j < st.store.length := List.mem_range.mp (hperm.mem_iff.mp hj)
  simp only [ho, Bool.false_eq_true, if_false, decide_eq_true_eq]
  exact habs j hjr

theorem findPos_some (st : RefsState) (o : Ref) (i : Nat) (ho : o.replace = false)
    (hperm : CatalogPerm st) (hinj : NamesInj st)
    (hi : i < st.store.length) (hname : (getRef st i).name = o.name) :
    findPos o st = some i := by
  unfold findPos
  have hmem : i ∈ st.catalog := hperm.mem_iff.mpr (List.mem_range.mpr hi)
  have hsome : (st.catalog.find? (fun j =>
      if o.replace then (getRef st j).id = o.id else (getRef st j).name = o.name)).isSome :=
    List.find?_isSome.mpr ⟨i, hmem, by
      simp only [ho, Bool.false_eq_true, if_false, decide_eq_true_eq]
      exact hname⟩
  obtain ⟨j, hj⟩ := Option.isSome_iff_exists.mp hsome
  have hjp := List.find?_some hj
  have hjmem := List.mem_of_find?_eq_some hj
  have hjlt : j < st.store.length := List.mem_range.mp (hperm.mem_iff.mp hjmem)
  simp only [ho, Bool.false_eq_true, if_false, decide_eq_true_eq] at hjp
  have : j = i := namesInj_index st hinj j i hjlt hi (by rw [hjp, hname])
  rw [hj, this]

theorem applyObs_update (st : RefsState) (o : Ref) (i : Nat) (hf : findPos o st = some i)
    (hname : (getRef st i).name = o.name) :
    (applyObs st o).store = st.store.set i o ∧ (applyObs st o).catalog = st.catalog := by
  unfold applyObs
  rw [hf]
  constructor
  · show st.store.set i { o with name := (getRef st i).name } = st.store.set i o
    rw [hname]
  · rfl

theorem applyObs_append (st : RefsState) (o : Ref) (hf : findPos o st = none) :
    (applyObs st o).store = st.store ++ [o] ∧
    (applyObs st o).catalog = st.catalog ++ [st.store.length] := by
  unfold applyObs
  rw [hf]
  exact ⟨rfl, rfl⟩

theorem lastVal_name (os : List Ref) (k : List Char) (v : Ref)
    (h : lastVal os k = some v) : v.name = k := by
  induction os with
  | nil => cases h
  | cons o os' ih =>
    unfold lastVal at h
    cases hlv : lastVal os' k with
    | some w =>
      rw [hlv] at h
      cases h
      exact ih hlv
    | none =>
      rw [hlv] at h
      by_cases he : o.name = k
      · rw [if_pos he] at h
        cases h
        exact he
      · rw [if_neg he] at h
        cases h

theorem lastVal_mem (os : List Ref) (k : List Char) (v : Ref)
    (h : lastVal os k = some v) : v ∈ os := by
  induction os with
  | nil => cases h
  | cons o os' ih =>
    unfold lastVal at h
    cases hlv : lastVal os' k with
    | some w =>
      rw [hlv] at h
      cases h
      exact List.mem_cons_of_mem _ (ih hlv)
    | none =>
      rw [hlv] at h
      by_cases he : o.name = k
      · rw [if_pos he] at h
        cases h
        exact List.mem_cons_self _ _
      · rw [if_neg he] at h
        cases h

theorem updR_name (os : List Ref) (r : Ref) : (updR os r).name = r.name := by
  unfold updR
  cases h : lastVal os r.name with
  | none => rfl
  | some v => exact lastVal_name os r.name v h

theorem updR_mem_or_self (os : List Ref) (r : Ref) : updR os r ∈ os ∨ updR os r = r := by
  unfold updR
  cases h : lastVal os r.name with
  | none => exact Or.inr rfl
  | some v => exact Or.inl (lastVal_mem os r.name v h)

theorem lastVal_cons (o : Ref) (os : List Ref) (k : List Char) :
    lastVal (o :: os) k = match lastVal os k with
      | some v => some v
      | none => if o.name = k then some o else none := rfl

theorem updR_cons_ne (o : Ref) (os : List Ref) (r : Ref) (h : r.name ≠ o.name) :
    updR (o :: os) r = updR os r := by
  unfold updR
  rw [lastVal_cons]
  cases hlv : lastVal os r.name with
  | some v => rfl
  | none =>
    rw [if_neg (fun he => h he.symm)]

theorem updR_cons_self (o : Ref) (os : List Ref) (r : Ref) (h : r.name = o.name) :
    updR (o :: os) r = updR os o := by
  unfold updR
  rw [h, lastVal_cons]
  cases hlv : lastVal os o.name with
  | some v => rfl
  | none =>
    rw [if_pos rfl]

theorem news_cons (o : Ref) (os : List Ref) (seen : List (List Char)) :
    news (o :: os) seen = if o.name ∈ seen then news os seen
      else updR os o :: news os (o.name :: seen) := rfl

theorem news_lastVal (os : List Ref) (seen : List (List Char)) (r : Ref)
    (h : r ∈ news os seen) : lastVal os r.name = some r := by
  induction os generalizing seen with
  | nil => cases h
  | cons o os' ih =>
    unfold news at h
    rw [lastVal_cons]
    by_cases hm : o.name ∈ seen
    · rw [if_pos hm] at h
      rw [ih seen h]
    · rw [if_neg hm] at h
      rcases List.mem_cons.mp h with rfl | h2
      · have hn : (updR os' o).name = o.name := updR_name os' o
        rw [hn]
        cases hlv : lastVal os' o.name with
        | some v =>
          unfold updR
          rw [hlv]
        | none =>
          rw [if_pos rfl]
          unfold updR
          rw [hlv]
      · rw [ih _ h2]

theorem news_names_fresh (os : List Ref) (seen : List (List Char)) :
    ((news os seen).map Ref.name).Nodup ∧ ∀ k ∈ (news os seen).map Ref.name, k ∉ seen := by
  induction os generalizing seen with
  | nil => exact ⟨List.nodup_nil, by simp [news]⟩
  | cons o os' ih =>
    unfold news
    by_cases hm : o.name ∈ seen
    · rw [if_pos hm]
      exact ih seen
    · rw [if_neg hm]
      obtain ⟨ihn, ihs⟩ := ih (o.name :: seen)
      rw [List.map_cons]
      constructor
      · rw [List.nodup_cons]
        refine ⟨?_, ihn⟩
        rw [updR_name]
        intro hmem
        exact (ihs _ hmem) (List.mem_cons_self _ _)
      · intro k hk
        rcases List.mem_cons.mp hk with rfl | hk2
        · rw [updR_name]
          exact hm
        · intro hks
          exact (ihs k hk2) (List.mem_cons_of_mem _ hks)

theorem news_nil_of_covered (os : List Ref) (seen : List (List Char))
    (h : ∀ o ∈ os, o.name ∈ seen) : news os seen = [] := by
  induction os with
  | nil => rfl
  | cons o os' ih =>
    unfold news
    rw [if_pos (h o (List.mem_cons_self _ _))]
    exact ih (fun o' ho' => h o' (List.mem_cons_of_mem _ ho'))

theorem news_names_complete (os : List Ref) : ∀ (seen : List (List Char)) (o : Ref),
    o ∈ os → o.name ∈ seen ∨ o.name ∈ (news os seen).map Ref.name := by
  induction os with
  | nil =>
    intro seen o ho
    cases ho
  | cons o1 os' ih =>
    intro seen o ho
    unfold news
    rcases List.mem_cons.mp ho with rfl | ho2
    · by_cases hm : o.name ∈ seen
      · exact Or.inl hm
      · rw [if_neg hm]
        right
        rw [List.map_cons, updR_name]
        exact List.mem_cons_self _ _
    · by_cases hm : o1.name ∈ seen
      · rw [if_pos hm]
        exact ih seen o ho2
      · rw [if_neg hm]
        rcases ih (o1.name :: seen) o ho2 with h | h
        · rcases List.mem_cons.mp h with he | hs
          · right
            rw [List.map_cons, updR_name, he]
            exact List.mem_cons_self _ _
          · exact Or.inl hs
        · right
          rw [List.map_cons]
          exact List.mem_cons_of_mem _ h

theorem news_congr (os : List Ref) : ∀ (s1 s2 : List (List Char)),
    (∀ k, k ∈ s1 ↔ k ∈ s2) → news os s1 = news os s2 := by
  induction os with
  | nil =>
    intro s1 s2 _
    rfl
  | cons o os' ih =>
    intro s1 s2 h
    unfold news
    by_cases hm : o.name ∈ s1
    · rw [if_pos hm, if_pos ((h o.name).mp hm)]
      exact ih s1 s2 h
    · rw [if_neg hm, if_neg (fun hx => hm ((h o.name).mpr hx))]
      rw [ih (o.name :: s1) (o.name :: s2) (fun k => by simp [List.mem_cons, h k])]

theorem getRef_eq_getElem (st : RefsState) (i : Nat) (hi : i < st.store.length) :
    getRef st i = st.store[i] := by
  unfold getRef
  rw [List.getD_eq_getElem?_getD, List.getElem?_eq_getElem hi]
  rfl

theorem set_self_of_getElem {α : Type} (l : List α) (i : Nat) (v : α)
    (h : l[i]? = some v) : l.set i v = l := by
  apply List.ext_getElem?
  intro n
  rw [List.getElem?_set]
  by_cases he : i = n
  · subst he
    have hi : i < l.length := by
      by_contra hc
      rw [List.getElem?_eq_none (by omega)] at h
      cases h
    rw [if_pos rfl, if_pos hi, h]
  · rw [if_neg he]

/-- Characterization of an ingest over name-keyed (non-replacement)
observations: existing records are overwritten in place with the last
value their key receives, and one record per fresh key is appended, in
first-occurrence order, carrying its final value; the catalog gains
exactly the new indices at the end, and name-distinctness and the
catalog-permutation invariant are preserved. -/
theorem ingest_char (os : List Ref) : ∀ (st : RefsState),
    NamesInj st → CatalogPerm st → (∀ o ∈ os, o.replace = false) →
    (os.foldl applyObs st).store
        = st.store.map (updR os) ++ news os (st.store.map Ref.name) ∧
    (os.foldl applyObs st).catalog
        = st.catalog ++ List.range' st.store.length (news os (st.store.map Ref.name)).length ∧
    NamesInj (os.foldl applyObs st) ∧ CatalogPerm (os.foldl applyObs st) := by
  induction os with
  | nil =>
    intro st hinj hperm _
    refine ⟨?_, ?_, hinj, hperm⟩
    · show st.store = st.store.map (updR []) ++ []
      rw [List.append_nil,
        show st.store.map (updR []) = st.store.map (fun r => r) from
          List.map_congr_left (fun r _ => rfl), List.map_id']
    · show st.catalog = st.catalog ++ List.range' st.store.length 0
      rw [show List.range' st.store.length 0 = [] from rfl, List.append_nil]
  | cons o os' ih =>
    intro st hinj hperm hnr
    have hno : o.replace = false := hnr o (List.mem_cons_self _ _)
    have hnr' : ∀ x ∈ os', x.replace = false := fun x hx => hnr x (List.mem_cons_of_mem _ hx)
    rw [List.foldl_cons]
    by_cases hex : ∃ i, i < st.store.length ∧ (getRef st i).name = o.name
    · obtain ⟨i, hi, hname⟩ := hex
      have hfp := findPos_some st o i hno hperm hinj hi hname
      obtain ⟨hst', hcat'⟩ := applyObs_update st o i hfp hname
      have hmaplen : i < (st.store.map Ref.name).length := by simpa using hi
      have hnames' : (applyObs st o).store.map Ref.name = st.store.map Ref.name := by
        rw [hst', List.map_set]
        apply set_self_of_getElem
        rw [getRef_name_eq_names_getElem st i hi, hname]
      have hlen' : (applyObs st o).store.length = st.store.length := by
        rw [hst']
        simp
      have hinj' : NamesInj (applyObs st o) := by
        unfold NamesInj
        rw [hnames']
        exact hinj
      have hperm' : CatalogPerm (applyObs st o) := by
        unfold CatalogPerm
        rw [hcat', hlen']
        exact hperm
      obtain ⟨ihs, ihc, ihi, ihp⟩ := ih (applyObs st o) hinj' hperm' hnr'
      have hmemname : o.name ∈ st.store.map Ref.name := by
        have hg := getRef_name_eq_names_getElem st i hi
        rw [hname] at hg
        exact List.getElem?_mem hg
      have hnews_eq : news (o :: os') (st.store.map Ref.name)
          = news os' (st.store.map Ref.name) := by
        rw [news_cons, if_pos hmemname]
      have hmap_eq : (applyObs st o).store.map (updR os') = st.store.map (updR (o :: os')) := by
        rw [hst', List.map_set]
        apply List.ext_getElem?
        intro n
        rw [List.getElem?_set]
        by_cases he : i = n
        · subst he
          have hlen2 : i < (st.store.map (updR os')).length := by simpa using hi
          rw [if_pos rfl, if_pos hlen2, List.getElem?_map, List.getElem?_eq_getElem hi]
          show some (updR os' o) = some (updR (o :: os') st.store[i])
          rw [updR_cons_self o os' _ (by
            rw [← getRef_eq_getElem st i hi]
            exact hname)]
        · rw [if_neg he, List.getElem?_map, List.getElem?_map]
          cases hsn : st.store[n]? with
          | none => rfl
          | some r =>
            show some (updR os' r) = some (updR (o :: os') r)
            obtain ⟨hnlt, hre⟩ := List.getElem?_eq_some.mp hsn
            rw [updR_cons_ne o os' r (by
              intro hrn
              apply he
              apply namesInj_index st hinj i n hi hnlt
              rw [hname, getRef_eq_getElem st n hnlt, hre, hrn])]
      refine ⟨?_, ?_, ihi, ihp⟩
      · rw [ihs, hnames', hmap_eq, hnews_eq]
      · rw [ihc, hcat', hlen', hnames', hnews_eq]
    · push_neg at hex
      have hfp := findPos_none st o hno hperm hex
      obtain ⟨hst', hcat'⟩ := applyObs_append st o hfp
      have hnotmem : o.name ∉ st.store.map Ref.name := by
        intro hm
        obtain ⟨r, hr, hrn⟩ := List.mem_map.mp hm
        obtain ⟨n, hn, rfl⟩ := List.mem_iff_getElem.mp hr
        exact hex n hn (by rw [getRef_eq_getElem st n hn]; exact hrn)
      have hnames' : (applyObs st o).store.map Ref.name
          = st.store.map Ref.name ++ [o.name] := by
        rw [hst', List.map_append]
        rfl
      have hlen' : (applyObs st o).store.length = st.store.length + 1 := by
        rw [hst']
        simp
      have hinj' : NamesInj (applyObs st o) := by
        unfold NamesInj
        rw [hnames', List.nodup_append]
        exact ⟨hinj, List.nodup_singleton _, by
          intro a ha hb
          rw [List.mem_singleton] at hb
          subst hb
          exact hnotmem ha⟩
      have hperm' : CatalogPerm (applyObs st o) := by
        unfold CatalogPerm
        rw [hcat', hlen', List.range_succ]
        exact hperm.append (List.Perm.refl _)
      obtain ⟨ihs, ihc, ihi, ihp⟩ := ih (applyObs st o) hinj' hperm' hnr'
      have hnews_eq : news (o :: os') (st.store.map Ref.name)
          = updR os' o :: news os' (o.name :: st.store.map Ref.name) := by
        rw [news_cons, if_neg hnotmem]
      have hcongr : news os' ((applyObs st o).store.map Ref.name)
          = news os' (o.name :: st.store.map Ref.name) := by
        rw [hnames']
        exact news_congr os' _ _ (fun k => by
          simp [List.mem_append, List.mem_cons]
          exact Or.comm)
      have hupds : st.store.map (updR (o :: os')) = st.store.map (updR os') :=
        List.map_congr_left (fun r hr => by
          obtain ⟨n, hn, rfl⟩ := List.mem_iff_getElem.mp hr
          exact updR_cons_ne o os' _ (by
            rw [← getRef_eq_getElem st n hn]
            exact hex n hn))
      refine ⟨?_, ?_, ihi, ihp⟩
      · rw [ihs, hcongr, hst', hnews_eq, hupds, List.map_append, List.append_assoc]
        rfl
      · rw [ihc, hcat', hlen', hcongr, hnews_eq, List.append_assoc]
        rw [show (updR os' o :: news os' (o.name :: st.store.map Ref.name)).length
            = (news os' (o.name :: st.store.map Ref.name)).length + 1 from rfl]
        rw [List.range'_succ st.store.length _ 1]
        rfl

theorem tombstone_of_valid (s : RefsState) (h : ∀ r ∈ s.store, r.valid = true) :
    tombstone_refs s = s := by
  unfold tombstone_refs
  rw [List.map_congr_left (fun r hr => by rw [if_pos (h r hr)]), List.map_id']

theorem prune_of_no_lists (s : RefsState) (h : s.refLists = []) : prune_ref_lists s = s := by
  unfold prune_ref_lists
  rw [h]
  show { s with refLists := ([] : List RefList) } = s
  rw [← h]

theorem stale_names (s : RefsState) :
    (stale_refs s).store.map Ref.name = s.store.map Ref.name := by
  unfold stale_refs
  rw [List.map_map]
  exact List.map_congr_left (fun r _ => rfl)

theorem sortIdx_congr (s1 s2 : RefsState) (h : s1.store = s2.store) (l : List Nat) :
    sortIdx s1 l = sortIdx s2 l := by
  cases s1
  cases s2
  simp only at h
  subst h
  rfl

theorem catalogTuples_congr (s1 s2 : RefsState) (hs : s1.store = s2.store)
    (hc : s1.catalog = s2.catalog) : catalogTuples s1 = catalogTuples s2 := by
  unfold catalogTuples
  rw [hc]
  exact List.map_congr_left (fun i _ => by unfold getRef; rw [hs])

theorem resolve_head_of_ne (h : List Char) (o : Option (List Char)) (hh : ¬ h = []) :
    resolve_head h o = h := by
  unfold resolve_head
  rw [if_pos hh]

theorem resolve_head_idem (h : List Char) (o : Option (List Char)) :
    resolve_head (resolve_head h o) o = resolve_head h o := by
  by_cases hh : h = []
  · subst hh
    cases o with
    | none =>
      have h1 : resolve_head [] none = [] := rfl
      rw [h1]
      exact h1
    | some s =>
      have h1 : resolve_head [] (some s) =
          if sRefsHeads.isPrefixOf s then s.drop sRefsHeads.length else s := by
        unfold resolve_head
        rw [if_neg (by simp)]
      rw [h1]
      unfold resolve_head
      by_cases h2 : (if sRefsHeads.isPrefixOf s then s.drop sRefsHeads.length else s) ≠ []
      · rw [if_pos h2]
      · rw [if_neg h2]
  · rw [resolve_head_of_ne h o hh, resolve_head_of_ne h o hh]

theorem reload_repoHead_succ (g r h : List Char) (src : Source) (st : RefsState)
    (hg : g ≠ []) (hok : src.ok = true) :
    (reload_refs g r h src st).repoHead = resolve_head h src.headOut := by
  simp [reload_refs, hg, hok]

/-- Core of the amended idempotence claim: over a replacement-free
observation stream, the second reload pipeline reproduces the first one's
store and catalog exactly. -/
theorem reload_twice_core (opt : RefOpt) (ps : List (List Char × List Char)) (st1 : RefsState)
    (hnr : ∀ o ∈ obsOf opt ps, o.replace = false)
    (hst1 : st1 = sort_catalog (prune_ref_lists (tombstone_refs
      (ingest opt ps (stale_refs emptyState))))) :
    (sort_catalog (prune_ref_lists (tombstone_refs (ingest opt ps (stale_refs st1))))).store
        = st1.store ∧
    (sort_catalog (prune_ref_lists (tombstone_refs (ingest opt ps (stale_refs st1))))).catalog
        = st1.catalog := by
  have hvalid_os : ∀ o ∈ obsOf opt ps, o.valid = true := by
    intro o ho
    obtain ⟨p, _, hc⟩ := List.mem_filterMap.mp ho
    exact classify_valid_true p.1 p.2 opt o hc
  have hempty_inj : NamesInj emptyState := List.nodup_nil
  have hempty_perm : CatalogPerm emptyState := List.Perm.nil
  have hstale_empty : stale_refs emptyState = emptyState := rfl
  have hingest1 : ingest opt ps (stale_refs emptyState)
      = (obsOf opt ps).foldl applyObs emptyState := by
    rw [hstale_empty, ingest_eq_obs_fold]
  obtain ⟨hs1, hc1, hi1, hp1⟩ := ingest_char (obsOf opt ps) emptyState hempty_inj
    hempty_perm hnr
  have hmid1_store : ((obsOf opt ps).foldl applyObs emptyState).store
      = news (obsOf opt ps) [] := by
    rw [hs1]
    rfl
  have hmid1_cat : ((obsOf opt ps).foldl applyObs emptyState).catalog
      = List.range' 0 (news (obsOf opt ps) []).length := by
    rw [hc1]
    rfl
  have hmid1_valid : ∀ x ∈ ((obsOf opt ps).foldl applyObs emptyState).store,
      x.valid = true := by
    intro x hx
    rw [hmid1_store] at hx
    exact hvalid_os x (lastVal_mem _ _ _ (news_lastVal _ _ _ hx))
  have hmid1_rl : ((obsOf opt ps).foldl applyObs emptyState).refLists = [] := by
    rw [← hingest1, ingest_refLists]
    rfl
  have hst1_eq : st1 = sort_catalog ((obsOf opt ps).foldl applyObs emptyState) := by
    rw [hst1, hingest1, tombstone_of_valid _ hmid1_valid, prune_of_no_lists _ hmid1_rl]
  have hst1_store : st1.store = news (obsOf opt ps) [] := by
    rw [hst1_eq]
    exact hmid1_store
  have hst1_cat : st1.catalog = sortIdx ((obsOf opt ps).foldl applyObs emptyState)
      (List.range' 0 (news (obsOf opt ps) []).length) := by
    rw [hst1_eq]
    show sortIdx _ ((obsOf opt ps).foldl applyObs emptyState).catalog = _
    rw [hmid1_cat]
  have hstale1_names : (stale_refs st1).store.map Ref.name
      = (news (obsOf opt ps) []).map Ref.name := by
    rw [stale_names, hst1_store]
  have hstale1_inj : NamesInj (stale_refs st1) := by
    unfold NamesInj
    rw [hstale1_names]
    exact (news_names_fresh _ _).1
  have hst1_perm : CatalogPerm st1 := by
    unfold CatalogPerm
    have hr : List.range' 0 (news (obsOf opt ps) []).length
        = List.range (news (obsOf opt ps) []).length := (List.range_eq_range' _).symm
    rw [hst1_cat, hst1_store, hr]
    exact List.perm_insertionSort _ _
  have hstale1_perm : CatalogPerm (stale_refs st1) := by
    unfold CatalogPerm
    rw [show (stale_refs st1).store.length = st1.store.length from List.length_map _ _]
    exact hst1_perm
  have hingest2 : ingest opt ps (stale_refs st1)
      = (obsOf opt ps).foldl applyObs (stale_refs st1) := ingest_eq_obs_fold opt ps _
  obtain ⟨hs2, hc2, hi2, hp2⟩ := ingest_char (obsOf opt ps) (stale_refs st1) hstale1_inj
    hstale1_perm hnr
  have hcover : ∀ o ∈ obsOf opt ps, o.name ∈ (stale_refs st1).store.map Ref.name := by
    intro o ho
    rw [hstale1_names]
    rcases news_names_complete (obsOf opt ps) [] o ho with hin | hin
    · cases hin
    · exact hin
  have hnews2 : news (obsOf opt ps) ((stale_refs st1).store.map Ref.name) = [] :=
    news_nil_of_covered _ _ hcover
  have hmid2_store : ((obsOf opt ps).foldl applyObs (stale_refs st1)).store = st1.store := by
    rw [hs2, hnews2, List.append_nil, hst1_store]
    have hss : (stale_refs st1).store
        = (news (obsOf opt ps) []).map (fun x => { x with valid := false }) := by
      show st1.store.map _ = _
      rw [hst1_store]
    rw [hss, List.map_map]
    have hcg : (news (obsOf opt ps) []).map
          ((updR (obsOf opt ps)) ∘ (fun x => ({ x with valid := false } : Ref)))
        = (news (obsOf opt ps) []).map (fun x => x) := by
      apply List.map_congr_left
      intro x hx
      show updR (obsOf opt ps) { x with valid := false } = x
      unfold updR
      rw [show ({ x with valid := false } : Ref).name = x.name from rfl,
        news_lastVal _ _ _ hx]
    rw [hcg, List.map_id']
  have hmid2_cat : ((obsOf opt ps).foldl applyObs (stale_refs st1)).catalog
      = st1.catalog := by
    rw [hc2, hnews2]
    show (stale_refs st1).catalog ++ List.range' (stale_refs st1).store.length 0 = st1.catalog
    rw [show List.range' (stale_refs st1).store.length 0 = [] from rfl, List.append_nil]
    rfl
  have hmid2_valid : ∀ x ∈ ((obsOf opt ps).foldl applyObs (stale_refs st1)).store,
      x.valid = true := by
    intro x hx
    rw [hmid2_store, hst1_store] at hx
    exact hvalid_os x (lastVal_mem _ _ _ (news_lastVal _ _ _ hx))
  have hmid2_rl : ((obsOf opt ps).foldl applyObs (stale_refs st1)).refLists = [] := by
    rw [← hingest2, ingest_refLists, stale_refs_refLists, hst1_eq]
    exact hmid1_rl
  constructor
  · rw [hingest2, tombstone_of_valid _ hmid2_valid, prune_of_no_lists _ hmid2_rl]
    exact hmid2_store
  · rw [hingest2, tombstone_of_valid _ hmid2_valid, prune_of_no_lists _ hmid2_rl]
    show sortIdx _ ((obsOf opt ps).foldl applyObs (stale_refs st1)).catalog = st1.catalog
    rw [hmid2_cat,
      sortIdx_congr ((obsOf opt ps).foldl applyObs (stale_refs st1)) st1 hmid2_store]
    have hsorted : List.Sorted (refLe st1) st1.catalog := by
      rw [hst1_cat, hst1_eq]
      haveI := refLe_isTotal ((obsOf opt ps).foldl applyObs emptyState)
      haveI := refLe_isTrans ((obsOf opt ps).foldl applyObs emptyState)
      exact List.sorted_insertionSort (refLe ((obsOf opt ps).foldl applyObs emptyState))
        (List.range' 0 (news (obsOf opt ps) []).length)
    exact List.Sorted.insertionSort_eq hsorted

/-- Claim C9, counterexample.  Reloading twice over the identical stream
`[("A","refs/replace/B"), ("X","refs/heads/replaced")]` is not
idempotent: the first reload leaves one record (the replacement record,
whose name `replaced` was then captured and overwritten by the branch
observation), while the second reload, finding no record with id `B`,
creates a second record — the catalog's `(key, id, flags)` tuples differ
in number and content after the two reloads. -/
theorem C9_cex :
    (catalogTuples st91).length = 1 ∧ (catalogTuples st92).length = 2 ∧
    catalogTuples st92 ≠ catalogTuples st91 := by decide

/-- Claim C9, amended: running a reload twice over the identical input
stream (same pairs, same head resolution), starting from an empty
catalog, leaves the catalog with the same records and the same sorted
order — hence the same `(key, id, flags)` tuples in the same order —
PROVIDED the stream contains no `refs/replace/` observations.  With
replacement observations the upsert keys (name vs id) can interfere and
a second identical reload can create additional records (see the
counterexample). -/
theorem C9_thm (g r h : List Char) (src : Source)
    (hg : g ≠ []) (hok : src.ok = true)
    (hnrep : ∀ p ∈ src.pairs, sRefsReplace.isPrefixOf p.2 = false) :
    (reload_refs g r (reload_refs g r h src emptyState).repoHead src
        (reload_refs g r h src emptyState).state).state.store
      = (reload_refs g r h src emptyState).state.store ∧
    (reload_refs g r (reload_refs g r h src emptyState).repoHead src
        (reload_refs g r h src emptyState).state).state.catalog
      = (reload_refs g r h src emptyState).state.catalog ∧
    catalogTuples (reload_refs g r (reload_refs g r h src emptyState).repoHead src
        (reload_refs g r h src emptyState).state).state
      = catalogTuples (reload_refs g r h src emptyState).state := by
  have hnr : ∀ o ∈ obsOf { remote := r, head := resolve_head h src.headOut } src.pairs,
      o.replace = false := by
    intro o ho
    obtain ⟨p, hp, hc⟩ := List.mem_filterMap.mp ho
    exact classify_replace_false p.1 p.2 _ o (hnrep p hp) hc
  have hR1 : (reload_refs g r h src emptyState).state
      = sort_catalog (prune_ref_lists (tombstone_refs
          (ingest { remote := r, head := resolve_head h src.headOut } src.pairs
            (stale_refs emptyState)))) := reload_success_state g r h src emptyState hg hok
  have hRH : (reload_refs g r h src emptyState).repoHead = resolve_head h src.headOut :=
    reload_repoHead_succ g r h src emptyState hg hok
  rw [hRH]
  have hR2 : (reload_refs g r (resolve_head h src.headOut) src
      (reload_refs g r h src emptyState).state).state
      = sort_catalog (prune_ref_lists (tombstone_refs
          (ingest
            ⟨r, resolve_head (resolve_head h src.headOut) src.headOut⟩
            src.pairs (stale_refs (reload_refs g r h src emptyState).state)))) :=
    reload_success_state g r _ src _ hg hok
  rw [resolve_head_idem h src.headOut] at hR2
  obtain ⟨hs, hc⟩ := reload_twice_core { remote := r, head := resolve_head h src.headOut }
    src.pairs (reload_refs g r h src emptyState).state hnr hR1
  refine ⟨?_, ?_, ?_⟩
  · rw [hR2]
    exact hs
  · rw [hR2]
    exact hc
  · rw [hR2]
    exact catalogTuples_congr _ _ hs hc

/-- Witness for `C9_thm`: the replacement-free stream `src9g` (annotated
tag, branch, remote), reloaded twice from the empty catalog. -/
theorem C9_witness :
    (reload_refs "d".data "origin".data
        (reload_refs "d".data "origin".data [] src9g emptyState).repoHead src9g
        (reload_refs "d".data "origin".data [] src9g emptyState).state).state.store
      = (reload_refs "d".data "origin".data [] src9g emptyState).state.store ∧
    (reload_refs "d".data "origin".data
        (reload_refs "d".data "origin".data [] src9g emptyState).repoHead src9g
        (reload_refs "d".data "origin".data [] src9g emptyState).state).state.catalog
      = (reload_refs "d".data "origin".data [] src9g emptyState).state.catalog ∧
    catalogTuples (reload_refs "d".data "origin".data
        (reload_refs "d".data "origin".data [] src9g emptyState).repoHead src9g
        (reload_refs "d".data "origin".data [] src9g emptyState).state).state
      = catalogTuples (reload_refs "d".data "origin".data [] src9g emptyState).state :=
  C9_thm "d".data "origin".data [] src9g (by decide) rfl (by decide)

/-- Claim C6, counterexample.  A record tombstoned by a reload (name kept,
id cleared to the empty sentinel) DOES appear in the list returned by a
`get_ref_list` query for the empty string: the fresh scan compares the
query against each record's current id, and the tombstoned record's id is
exactly the empty string.  The claim's "never appears ... whatever id
string is queried" fails at the empty query. -/
theorem C6_cex :
    (getRef st62 0).name = "x".data ∧ (getRef st62 0).id = [] ∧
    (get_ref_list [] st62).1 = some ⟨[], [0]⟩ := by decide

/-- Claim C6, amended: a record upserted before a reload and not
re-observed by that (completed, successful) reload still exists afterwards
with its original name and an empty id; such a tombstoned record is never
visited by `foreach_ref` and never appears in a `get_ref_list` answer for
any NON-EMPTY query id (a query for the empty string does return it, see
the counterexample). -/
theorem C6_thm (g r h : List Char) (src : Source) (st mid res : RefsState)
    (hg : g ≠ []) (hok : src.ok = true)
    (hmid : mid = ingest { remote := r, head := resolve_head h src.headOut } src.pairs
      (stale_refs st))
    (hres : res = (reload_refs g r h src st).state)
    (i : Nat) (hi : i < st.store.length)
    (hvalid : (getRef mid i).valid = false) :
    (getRef res i).name = (getRef st i).name ∧
    (getRef res i).id = [] ∧
    (∀ v, i ∉ foreach_ref res v) ∧
    (∀ (q : List Char) (l : RefList), q ≠ [] → (get_ref_list q res).1 = some l →
      i ∉ l.refs) := by
  subst hmid
  have hres2 : res = sort_catalog (prune_ref_lists (tombstone_refs
      (ingest { remote := r, head := resolve_head h src.headOut } src.pairs
        (stale_refs st)))) := by
    rw [hres, reload_success_state g r h src st hg hok]
  have hget_tomb : ∀ j, getRef res j =
      getRef (tombstone_refs (ingest { remote := r, head := resolve_head h src.headOut }
        src.pairs (stale_refs st))) j := by
    intro j
    rw [hres2]
    rfl
  have hi2 : i < (stale_refs st).store.length := by
    rw [stale_store_length]
    exact hi
  have hname_mid :
      (getRef (ingest { remote := r, head := resolve_head h src.headOut } src.pairs
        (stale_refs st)) i).name = (getRef st i).name := by
    rw [ingest_name _ _ _ _ hi2, getRef_stale]
  have hid_res : (getRef res i).id = [] := by
    rw [hget_tomb i, getRef_tombstone]
    rw [if_neg (by rw [hvalid]; exact Bool.false_ne_true)]
  have hname_res : (getRef res i).name = (getRef st i).name := by
    rw [hget_tomb i, getRef_tombstone]
    split_ifs with hv
    · exact hname_mid
    · show (getRef (ingest _ _ (stale_refs st)) i).name = _
      exact hname_mid
  refine ⟨hname_res, hid_res, ?_, ?_⟩
  · intro v hmem
    exact absurd hid_res (mem_foreachGo res v res.catalog i hmem)
  · intro q l hq hget hmem
    rcases get_ref_list_mem q res l i hget hmem with ⟨l1, hl1mem, hl1id, hl1refs⟩ | hidq
    · -- cached entry: every surviving member's id equals the entry key
      have hshape : res.refLists = st.refLists.map
          (pruneList (tombstone_refs
            (ingest { remote := r, head := resolve_head h src.headOut } src.pairs
              (stale_refs st)))) := by
        rw [hres2, sort_catalog_refLists, prune_ref_lists_refLists, tombstone_refs_refLists,
          ingest_refLists, stale_refs_refLists]
      rw [hshape] at hl1mem
      obtain ⟨l0, _, rfl⟩ := List.mem_map.mp hl1mem
      have hfilter := List.mem_filter.mp hl1refs
      have hidm : l0.id = (getRef (tombstone_refs
          (ingest { remote := r, head := resolve_head h src.headOut } src.pairs
            (stale_refs st))) i).id := of_decide_eq_true hfilter.2
      rw [← hget_tomb i, hid_res] at hidm
      have : l0.id = q := hl1id
      rw [this] at hidm
      exact hq hidm
    · rw [hid_res] at hidq
      exact hq hidq

/-- Witness for `C6_thm`: the tombstoning scenario of the counterexample
state, at record 0 (the branch `x` not re-observed by the second
reload). -/
theorem C6_witness :
    (getRef st62 0).name = (getRef st61 0).name ∧
    (getRef st62 0).id = [] ∧
    0 ∉ foreach_ref st62 (fun _ => true) ∧
    ∀ (l : RefList), (get_ref_list "A".data st62).1 = some l → 0 ∉ l.refs := by
  have h := C6_thm "d".data "origin".data [] ⟨none, [], true⟩ st61
    (ingest { remote := "origin".data, head := resolve_head [] none } []
      (stale_refs st61))
    st62 (by decide) rfl rfl rfl 0 (by decide) (by decide)
  exact ⟨h.1, h.2.1, h.2.2.1 (fun _ => true), fun l => h.2.2.2 "A".data l (by decide)⟩

/-- Claim C5, counterexample.  `compare_refs` is not a strict total order
on records: the two distinct replacement records produced by the
replacement-keying example (both named `replaced`, ids `B` and `D`)
compare as equal, because the comparator consults only the category flags
and the name, never the id. -/
theorem C5_cex : compare_refs repRefB repRefD = 0 ∧ repRefB ≠ repRefD := by decide

/-- Claim C5, amended: `compare_refs` is a total preorder, not a strict
total order — records comparing equal agree on every category flag and on
the name but may be distinct records (see the counterexample).  Its sign
agrees exactly with the spec's descending-priority lexicographic chain
(tag, annotated-tag, head, tracked, replace, remote-last, then
lexicographic name); equality holds precisely on equal flags and name;
and the five-kind example sorts as tag, head, remote-tracked, plain
branches (lexicographic), plain remote, both for the catalog sort and for
the index-cache entry built over the same records. -/
theorem C5_thm :
    (∀ r1 r2 : Ref,
      (compare_refs r1 r2 < 0 ↔ spec_compare r1 r2 = Ordering.lt) ∧
      (compare_refs r1 r2 = 0 ↔ spec_compare r1 r2 = Ordering.eq) ∧
      (0 < compare_refs r1 r2 ↔ spec_compare r1 r2 = Ordering.gt)) ∧
    (∀ r1 r2 : Ref, compare_refs r1 r2 = 0 ↔
      (r1.tag = r2.tag ∧ r1.ltag = r2.ltag ∧ r1.head = r2.head ∧ r1.tracked = r2.tracked ∧
       r1.replace = r2.replace ∧ r1.remote = r2.remote ∧ r1.name = r2.name)) ∧
    sortIdx st5 st5.catalog = [2, 3, 4, 5, 0, 1] ∧
    (get_ref_list "X".data st5).1 = some ⟨"X".data, [2, 3, 4, 5, 0, 1]⟩ := by
  refine ⟨?_, ?_, by decide, by decide⟩
  · intro r1 r2
    refine ⟨?_, ?_, ?_⟩
    · rw [← sign_eq_lt_iff, sign_compare_refs]
    · rw [← sign_eq_eq_iff, sign_compare_refs]
    · rw [← sign_eq_gt_iff, sign_compare_refs]
  · intro r1 r2
    rw [← sign_eq_eq_iff, sign_compare_refs]
    unfold spec_compare
    rw [ordering_then_eq_eq, ordering_then_eq_eq, ordering_then_eq_eq, ordering_then_eq_eq,
      ordering_then_eq_eq, ordering_then_eq_eq, cmpTrueFirst_eq_iff, cmpTrueFirst_eq_iff,
      cmpTrueFirst_eq_iff, cmpTrueFirst_eq_iff, cmpTrueFirst_eq_iff, cmpFalseFirst_eq_iff,
      cmpName_eq_iff]
